import Mathlib

/-!
Verification of the langgraph_deepseek_multiagent repository.

This file gives a shallow embedding, in Lean 4, of the parts of the Python
source that the specification talks about:

* `src/planning/task_planner.py` — task model, task decomposition
  (`decompose_task`, `_decompose_task_structured`, `_decompose_task_traditional`)
  and the execution planner (`create_execution_plan`);
* `src/llm/deepseek_client.py` / `src/llm/langchain_deepseek_client.py` —
  intent recognition with its fail-open default;
* `src/agents/coordinator.py` — the coordinator's dispatch, the
  information-query branch, and the specialist registry;
* `src/framework/multi_agent_framework.py` — the simple turn pipeline
  (`_coordinator_node`, `_simple_workflow`, `process_message`);
* `src/rag/rag_manager.py` — `search_and_format` with its sentinel strings.

Python effects are embedded explicitly: an LLM / network call that the code
awaits is passed in as a parameter holding the call's outcome, with `Except`
modelling a raised exception; a Python `dict` is an association list with
insert-or-replace semantics (insertion order preserved, later insert with the
same key replaces the value in place); `float` confidences are modelled as
rationals.  The planner's unbounded `while remaining_tasks:` loop is embedded
with an explicit pass counter initialised to the number of map entries; the
completeness theorem (every subtask id is emitted) shows that this number of
passes is never exceeded, i.e. that the source loop terminates.
-/

namespace MultiAgent

/-- `TaskComplexity` enum from `src/core/models.py`. -/
inductive TaskComplexity where
  | simple
  | medium
  | complex
deriving DecidableEq, Repr

/-- `IntentType` enum from `src/core/models.py`. -/
inductive IntentType where
  | casual_chat
  | complex_task
  | information_query
  | task_execution
deriving DecidableEq, Repr

/-- `MessageType` enum from `src/core/models.py`. -/
inductive MessageType where
  | user_input
  | agent_response
  | task_result
  | system_message
deriving DecidableEq, Repr

/-- `Task` model from `src/core/models.py` (fields used by the claims:
`id`, `name`, `description`, `complexity`, `subtasks`, `dependencies`,
`status`; the unused `result`/`metadata`/timestamp fields are omitted).
`subtasks` is recursive, as in the pydantic model. -/
inductive Task where
  | mk (id name description : String) (complexity : TaskComplexity)
      (subtasks : List Task) (dependencies : List String) (status : String)

def Task.id : Task → String
  | .mk i _ _ _ _ _ _ => i

def Task.name : Task → String
  | .mk _ n _ _ _ _ _ => n

def Task.description : Task → String
  | .mk _ _ d _ _ _ _ => d

def Task.complexity : Task → TaskComplexity
  | .mk _ _ _ c _ _ _ => c

def Task.subtasks : Task → List Task
  | .mk _ _ _ _ s _ _ => s

def Task.dependencies : Task → List String
  | .mk _ _ _ _ _ d _ => d

def Task.status : Task → String
  | .mk _ _ _ _ _ _ s => s

/-! ### The execution planner (`TaskPlanner.create_execution_plan`) -/

/-- One insertion into a Python `dict` keyed by subtask id
(`remaining_tasks[subtask.id] = subtask` behaviour of the comprehension
`{subtask.id: subtask for subtask in task.subtasks}`): if the key is already
present the value is replaced in place, otherwise the entry is appended. -/
def dictInsert (m : List Task) (t : Task) : List Task :=
  if t.id ∈ m.map Task.id then
    m.map (fun x => if x.id = t.id then t else x)
  else
    m ++ [t]

/-- `remaining_tasks = {subtask.id: subtask for subtask in task.subtasks}`. -/
def buildDict (ts : List Task) : List Task :=
  ts.foldl dictInsert []

/-- `dependencies_met = all(dep_id in completed_tasks or dep_id not in
remaining_tasks for dep_id in subtask.dependencies)` from
`create_execution_plan`. -/
def dependenciesMet (completed remainingIds : List String) (t : Task) : Bool :=
  t.dependencies.all fun dep => decide (dep ∈ completed) || decide (dep ∉ remainingIds)

/-- `ready_tasks`: the ids of the remaining subtasks whose dependencies are
met, in dict (insertion) order — the first loop of a planner pass. -/
def readyIds (completed : List String) (remaining : List Task) : List String :=
  (remaining.filter (dependenciesMet completed (remaining.map Task.id))).map Task.id

/-- The ids actually scheduled in one pass: `ready_tasks`, unless that list is
empty, in which case the stall is broken with
`ready_tasks = [list(remaining_tasks.keys())[0]]` — the first remaining dict
entry in insertion order. -/
def schedIds (completed : List String) (st : Task) (rest : List Task) : List String :=
  if readyIds completed (st :: rest) = [] then [st.id] else readyIds completed (st :: rest)

/-- The `while remaining_tasks:` loop of `create_execution_plan`.  Each pass
appends the scheduled ids to the order, adds them to `completed_tasks` and
deletes them from `remaining_tasks`.  `fuel` counts the passes still allowed;
`create_execution_plan` supplies the number of map entries, which the
completeness theorem shows is enough. -/
def planLoop : Nat → List Task → List String → List String
  | 0, _, _ => []
  | _ + 1, [], _ => []
  | fuel + 1, st :: rest, completed =>
    schedIds completed st rest ++
      planLoop fuel ((st :: rest).filter fun t => decide (t.id ∉ schedIds completed st rest))
        (completed ++ schedIds completed st rest)

/-- `TaskPlanner.create_execution_plan` from `src/planning/task_planner.py`. -/
def create_execution_plan (task : Task) : List String :=
  match task.subtasks with
  | [] => [task.id]
  | st :: rest =>
    let remaining := buildDict (st :: rest)
    planLoop remaining.length remaining []

/-- Spec-side transformation used to state the "a dependency id outside the
sibling set never blocks scheduling" half of the planner claim: keep, in each
subtask's dependency list, only ids of sibling subtasks. -/
def resolveToSiblings (sibIds : List String) (t : Task) : Task :=
  Task.mk t.id t.name t.description t.complexity t.subtasks
    (t.dependencies.filter fun d => decide (d ∈ sibIds)) t.status

/-- Spec-side: the task with every non-sibling dependency id dropped from its
subtasks' dependency lists. -/
def dropNonSiblingDeps (T : Task) : Task :=
  Task.mk T.id T.name T.description T.complexity
    (T.subtasks.map (resolveToSiblings (T.subtasks.map Task.id))) T.dependencies T.status

/-- A dependency-only leaf subtask, for concrete test inputs. -/
def mkLeaf (i : String) (deps : List String) : Task :=
  Task.mk i i i .simple [] deps "pending"

/-- A task with no subtasks. -/
def taskNoSubs : Task :=
  Task.mk "solo" "solo" "solo" .simple [] [] "pending"

/-- A task whose two subtasks form a dependency cycle; subtask "b" comes
first in the subtask list while "a" is the smaller id. -/
def taskCycle : Task :=
  Task.mk "root" "root" "root" .complex [mkLeaf "b" ["a"], mkLeaf "a" ["b"]] [] "pending"

/-- A task with an acyclic dependency: "b" (listed first) depends on "a";
"b" also carries a dangling dependency id "zz" that names no sibling. -/
def taskChain : Task :=
  Task.mk "root2" "root2" "root2" .complex [mkLeaf "b" ["a", "zz"], mkLeaf "a" []] [] "pending"

/-! ### Task decomposition (`TaskPlanner.decompose_task` and helpers) -/

/-- `TaskComplexity(value)`: the pydantic / Python `Enum` constructor, which
raises `ValueError` on a string outside the enumeration. -/
def TaskComplexity.ofString : String → Except String TaskComplexity
  | "simple" => .ok .simple
  | "medium" => .ok .medium
  | "complex" => .ok .complex
  | s => .error ("ValueError: " ++ s ++ " is not a valid TaskComplexity")

/-- One `subtask_data` dict as consumed by the decomposition loops (the
values of `subtask_data.get("name", "")`, `.get("description", "")` and
`.get("dependencies", [])`). -/
structure SubtaskData where
  name : String
  description : String
  dependencies : List String

/-- `StructuredTaskAnalysis` from `src/llm/langchain_deepseek_client.py`
(fields consumed by `_decompose_task_structured`; `required_info` and
`estimated_steps` are unused there and omitted). -/
structure StructuredTaskAnalysis where
  name : String
  description : String
  complexity : String
  subtasks : List SubtaskData

/-- The parsed JSON response consumed by `_decompose_task_traditional`:
`response.get("name", task_description)`, `response.get("description",
task_description)` and `response.get("subtasks", [])`. -/
structure TradResponse where
  name? : Option String
  description? : Option String
  subtasks : List SubtaskData

/-- Python `dict` insertion on string keys (`m[k] = v`): replace in place if
the key exists, else append. -/
def pyInsert {β : Type} (m : List (String × β)) (k : String) (v : β) : List (String × β) :=
  if k ∈ m.map Prod.fst then
    m.map (fun p => if p.1 = k then (k, v) else p)
  else
    m ++ [(k, v)]

/-- Python `dict` lookup (`m[k]` / `m.get(k)`). -/
def pyLookup {β : Type} : List (String × β) → String → Option β
  | [], _ => none
  | (k', v) :: rest, k => if k' = k then some v else pyLookup rest k

/-- The subtask-construction loop shared by both decomposition paths: each
subtask dict becomes a `Task` with a freshly generated id (supplied here in
`subIds`, one per subtask, standing for the `uuid.uuid4()` calls), simple
complexity and the raw dependency names. -/
def mkSubtasks (subs : List SubtaskData) (subIds : List String) : List Task :=
  (subs.zip subIds).map fun p =>
    Task.mk p.2 p.1.name p.1.description .simple [] p.1.dependencies "pending"

/-- `subtask_map[subtask.name] = subtask.id`, accumulated over the subtask
list (a later subtask with the same name overwrites the entry). -/
def buildSubtaskMap (ts : List Task) : List (String × String) :=
  ts.foldl (fun m t => pyInsert m t.name t.id) []

/-- The dependency rewrite loop: `subtask.dependencies =
[subtask_map.get(dep_name, dep_name) for dep_name in subtask.dependencies
if dep_name in subtask_map]` — names with a sibling of that name become that
sibling's id, other names are dropped. -/
def resolveDeps (m : List (String × String)) (t : Task) : Task :=
  Task.mk t.id t.name t.description t.complexity t.subtasks
    (t.dependencies.filterMap fun depName => pyLookup m depName) t.status

/-- `TaskPlanner._decompose_task_structured`, given the structured LLM result
and the fresh uuids; returns `.error` when `TaskComplexity(...)` raises. -/
def decomposeTaskStructured (analysis : StructuredTaskAnalysis) (mainId : String)
    (subIds : List String) : Except String Task :=
  match TaskComplexity.ofString analysis.complexity with
  | .error e => .error e
  | .ok cp =>
    let subs := mkSubtasks analysis.subtasks subIds
    .ok (Task.mk mainId analysis.name analysis.description cp
      (subs.map (resolveDeps (buildSubtaskMap subs))) [] "pending")

/-- `TaskPlanner._decompose_task_traditional`, given the parsed JSON
response, the result of `analyze_task_complexity` (which itself never
raises) and the fresh uuids. -/
def decomposeTaskTraditional (response : TradResponse) (complexityResult : TaskComplexity)
    (task_description mainId : String) (subIds : List String) : Task :=
  let subs := mkSubtasks response.subtasks subIds
  Task.mk mainId (response.name?.getD task_description)
    (response.description?.getD task_description) complexityResult
    (subs.map (resolveDeps (buildSubtaskMap subs))) [] "pending"

/-- `TaskPlanner.decompose_task`: wraps either decomposition path (whose
outcome, including any raised exception, is the `inner` argument) and on any
exception returns the degenerate single-node fallback task wrapping the
request verbatim. -/
def decompose_task (task_description fallbackId : String) (inner : Except String Task) : Task :=
  match inner with
  | .ok t => t
  | .error _ =>
    Task.mk fallbackId task_description task_description .simple [] [] "pending"

/-- Spec-side predicate: the relation between the incoming subtask dicts and
the built subtasks that C5 asserts — every stored dependency entry is the id
of a sibling; an id is delivered only for a dependency name carried by a
sibling of that name; a name carried by no sibling resolves to nothing; and
each subtask's final dependency list is exactly its raw dependency-name list
resolved through the name-to-id map (matches rewritten, misses dropped). -/
def DepsResolved (inSubs : List SubtaskData) (outSubs : List Task) : Prop :=
  (∀ st ∈ outSubs, ∀ d ∈ st.dependencies, d ∈ outSubs.map Task.id) ∧
  (∀ dn i, pyLookup (buildSubtaskMap outSubs) dn = some i →
    ∃ sib ∈ outSubs, sib.name = dn ∧ sib.id = i) ∧
  (∀ dn, dn ∉ outSubs.map Task.name → pyLookup (buildSubtaskMap outSubs) dn = none) ∧
  (∀ k (hk : k < outSubs.length) (hk2 : k < inSubs.length),
    (outSubs.get ⟨k, hk⟩).dependencies =
      (inSubs.get ⟨k, hk2⟩).dependencies.filterMap (pyLookup (buildSubtaskMap outSubs)))

/-- Concrete structured analysis: two subtasks; "alpha" depends on sibling
name "beta" and on "ghost", a name carried by no sibling. -/
def exAnalysis : StructuredTaskAnalysis :=
  ⟨"main", "main description", "medium",
   [⟨"alpha", "d1", ["beta", "ghost"]⟩, ⟨"beta", "d2", []⟩]⟩

/-- Concrete traditional-path response with the same subtask dicts. -/
def exResponse : TradResponse :=
  ⟨some "tn", none, [⟨"alpha", "d1", ["beta", "ghost"]⟩, ⟨"beta", "d2", []⟩]⟩

/-- The task `decomposeTaskStructured exAnalysis "m" ["i1", "i2"]` builds:
"beta" is rewritten to the fresh sibling id "i2" and "ghost" is dropped. -/
def exStructuredTask : Task :=
  Task.mk "m" "main" "main description" .medium
    [Task.mk "i1" "alpha" "d1" .simple [] ["i2"] "pending",
     Task.mk "i2" "beta" "d2" .simple [] [] "pending"]
    [] "pending"

/-! ### Intent recognition (`IntentRecognizer.recognize_intent` and
`LangChainDeepSeekClient.recognize_intent_structured`) -/

/-- `IntentType(value)`: raises `ValueError` on a label outside the
enumeration. -/
def IntentType.ofString : String → Except String IntentType
  | "casual_chat" => .ok .casual_chat
  | "complex_task" => .ok .complex_task
  | "information_query" => .ok .information_query
  | "task_execution" => .ok .task_execution
  | s => .error ("ValueError: " ++ s ++ " is not a valid IntentType")

/-- `Intent` model from `src/core/models.py` (the `entities`/`context` dicts
carry no constraint relevant to the claims and are omitted); `confidence` is
pydantic-validated to lie in `[0, 1]`. -/
structure Intent where
  type : IntentType
  confidence : ℚ
deriving DecidableEq

/-- Constructing an `Intent`: pydantic raises `ValidationError` when the
confidence is outside `[0, 1]`. -/
def Intent.make (ty : IntentType) (conf : ℚ) : Except String Intent :=
  if 0 ≤ conf ∧ conf ≤ 1 then .ok ⟨ty, conf⟩
  else .error "ValidationError: confidence out of range"

/-- The parsed JSON dict consumed by `IntentRecognizer.recognize_intent`
(`response.get("type", "casual_chat")`, `response.get("confidence", 0.0)`). -/
structure IntentDictResponse where
  type? : Option String
  confidence? : Option ℚ

/-- `IntentRecognizer.recognize_intent` from `src/llm/deepseek_client.py`:
`raw` is the outcome of the structured LLM call; any exception there, an
invalid label, or an invalid confidence falls back to the default
casual-chat intent with confidence 0.5. -/
def recognize_intent (raw : Except String IntentDictResponse) : Intent :=
  match raw with
  | .error _ => ⟨.casual_chat, 1/2⟩
  | .ok r =>
    match (IntentType.ofString (r.type?.getD "casual_chat")).bind
        (fun ty => Intent.make ty (r.confidence?.getD 0)) with
    | .ok i => i
    | .error _ => ⟨.casual_chat, 1/2⟩

/-- `StructuredIntent` pydantic model from
`src/llm/langchain_deepseek_client.py` (label is a required plain string). -/
structure StructuredIntentResult where
  type : String
  confidence : ℚ

/-- `LangChainDeepSeekClient.recognize_intent_structured`: same fail-open
default around `IntentType(structured_result.type)` and the `Intent`
construction. -/
def recognize_intent_structured (raw : Except String StructuredIntentResult) : Intent :=
  match raw with
  | .error _ => ⟨.casual_chat, 1/2⟩
  | .ok r =>
    match (IntentType.ofString r.type).bind (fun ty => Intent.make ty r.confidence) with
    | .ok i => i
    | .error _ => ⟨.casual_chat, 1/2⟩

/-! ### RAG formatting and the information-query branch -/

/-- Python's substring test `needle in haystack`, on the underlying
character lists. -/
def hasInfix : List Char → List Char → Bool
  | [], needle => needle.isEmpty
  | c :: rest, needle => needle.isPrefixOf (c :: rest) || hasInfix rest needle

/-- `"未找到相关信息" in rag_results` from
`CoordinatorAgent._handle_information_query`. -/
def containsNoInfoSentinel (s : String) : Bool :=
  hasInfix s.toList "未找到相关信息".toList

/-- One RAG hit as consumed by `RAGManager.search_and_format`
(`result["document"]`, `result["metadata"].get("source", ...)`). -/
structure RagResult where
  document : String
  source : String
deriving DecidableEq

/-- One formatted entry: `f"{i}. 来源：{source}\n"` + `f"内容：{doc}\n\n"`
with 1-based numbering. -/
def formatRagResult (idx : Nat) (r : RagResult) : String :=
  toString (idx + 1) ++ ". 来源：" ++ r.source ++ "\n" ++ "内容：" ++ r.document ++ "\n\n"

/-- `RAGManager.search_and_format` from `src/rag/rag_manager.py`: the "no
relevant information" sentinel on an empty hit list, an error string on an
exception, otherwise the formatted hits. -/
def search_and_format (searchOutcome : Except String (List RagResult)) : String :=
  match searchOutcome with
  | .error _ => "搜索过程中出现错误。"
  | .ok [] => "未找到相关信息。"
  | .ok results =>
    "基于知识库搜索到 " ++ toString results.length ++ " 个相关结果：\n\n" ++
      String.join (results.enum.map fun p => formatRagResult p.1 p.2)

/-- One formatted web search hit. -/
structure WebResult where
  title : String
  url : String
  snippet : String
deriving DecidableEq

/-- The dict returned by `SearchManager.search`: `results?` is `some` when
the `"results"` key is present (an error dict has no such key). -/
structure SearchResultM where
  results? : Option (List WebResult)
deriving DecidableEq

/-- The web_search `ToolCall` appended by the query branch
(`tool_name`, `parameters = {"query": user_input}`,
`result = {"results": web_results}`). -/
structure ToolCallM where
  tool_name : String
  query : String
  results : List WebResult
deriving DecidableEq

/-- `AgentResponse` model (fields used by the claims). -/
structure AgentResponseM where
  content : String
  tool_calls : List ToolCallM
  next_action : Option String
  confidence : ℚ
deriving DecidableEq

/-- `CoordinatorAgent._handle_information_query`: `rag_results` is the
string returned by the knowledge-base lookup, `searchResult` the web-search
outcome (consulted only in the sentinel case), `llmAnswer` the generation
call's text.  `web_results` stays `None` without the sentinel; with it, the
`"results"` value is taken if the key exists; the tool call is appended only
if `web_results` is truthy (non-`None` and non-empty). -/
def handleInformationQuery (user_input rag_results : String)
    (searchResult : SearchResultM) (llmAnswer : String) : AgentResponseM :=
  let webResults : Option (List WebResult) :=
    if containsNoInfoSentinel rag_results then searchResult.results? else none
  let tool_calls : List ToolCallM :=
    match webResults with
    | some rs => if rs.isEmpty then [] else [⟨"web_search", user_input, rs⟩]
    | none => []
  ⟨llmAnswer, tool_calls, none, 4/5⟩

/-! ### The turn pipeline (`MultiAgentFramework`) -/

/-- `Message` model (fields used by the claims; the metadata dict is
represented by its three optional entries used on agent responses). -/
structure MessageM where
  id : String
  type : MessageType
  content : String
  sender : String
  confidence? : Option ℚ
  tool_calls? : Option (List ToolCallM)
  next_action? : Option (Option String)
deriving DecidableEq

/-- `MultiAgentFramework._coordinator_node`: on success appends an
`agent_response` message carrying content and metadata; on an exception from
`coordinator.process` appends a `system_message` with the error text and
returns normally. -/
def coordinatorNode (messages : List MessageM) (procResult : Except String AgentResponseM)
    (msgId : String) : List MessageM :=
  match procResult with
  | .ok r => messages ++ [⟨msgId, .agent_response, r.content, "coordinator",
      some r.confidence, some r.tool_calls, some r.next_action⟩]
  | .error e => messages ++ [⟨msgId, .system_message, "处理过程中出现错误: " ++ e,
      "system", none, none, none⟩]

/-- `MultiAgentFramework._simple_workflow` restricted to the messages list:
`_memory_check_node` appends the retrieved history (state unchanged on a
retrieval exception), `_context_update_node` and `_response_generation_node`
do not touch the messages, then the coordinator node runs. -/
def simpleWorkflow (initial : List MessageM) (history : Except String (List MessageM))
    (procResult : Except String AgentResponseM) (msgId : String) : List MessageM :=
  coordinatorNode (initial ++ (match history with | .ok h => h | .error _ => []))
    procResult msgId

/-- The dict returned by `MultiAgentFramework.process_message` (keys used by
the claims). -/
structure ProcessResult where
  response : String
  confidence : ℚ
  tool_calls : List ToolCallM
  next_action : Option String
deriving DecidableEq

/-- `MultiAgentFramework.process_message` on the simple-workflow path: build
the initial state with the one user message, run the pipeline, then return
the last `agent_response` message's content and metadata, or the fixed
fallback reply if no `agent_response` message exists. -/
def process_message (user_input userId userMsgId coordMsgId : String)
    (history : Except String (List MessageM))
    (procResult : Except String AgentResponseM) : ProcessResult :=
  let userMessage : MessageM := ⟨userMsgId, .user_input, user_input, userId, none, none, none⟩
  let finalMessages := simpleWorkflow [userMessage] history procResult coordMsgId
  let responses := finalMessages.filter fun m => decide (m.type = .agent_response)
  match responses.getLast? with
  | some m => ⟨m.content, m.confidence?.getD 0, m.tool_calls?.getD [], m.next_action?.getD none⟩
  | none => ⟨"抱歉，我暂时无法处理您的请求。", 0, [], none⟩

/-! ### Coordinator dispatch and the specialist registry -/

/-- `CoordinatorAgent.process`: the empty-messages early return, then the
dispatch on the recognized intent type; each branch handler's outcome is a
parameter (`Except` for a raised exception, caught by the surrounding
try/except which returns the error response).  Intent recognition and
context extraction never raise (both catch internally) and the latter only
mutates the context, so they are not part of the messages-level model. -/
def processCoordinator (messages : List MessageM) (intent : Intent)
    (casualResult queryResult complexResult defaultResult : Except String AgentResponseM) :
    AgentResponseM :=
  match messages with
  | [] => ⟨"没有接收到消息", [], none, 0⟩
  | _ :: _ =>
    match (match intent.type with
           | .casual_chat => casualResult
           | .information_query => queryResult
           | .complex_task => complexResult
           | .task_execution => defaultResult) with
    | .ok r => r
    | .error e => ⟨"处理请求时出现错误: " ++ e, [], none, 0⟩

/-- `BaseAgent` as stored in the coordinator's registry: its `name` plus a
tag distinguishing distinct agent objects. -/
structure AgentM where
  name : String
  tag : Nat
deriving DecidableEq

/-- `CoordinatorAgent.register_agent`: `self.agents[agent.name] = agent`. -/
def register_agent (m : List (String × AgentM)) (a : AgentM) : List (String × AgentM) :=
  pyInsert m a.name a

/-- `CoordinatorAgent._select_agent_for_task`: iterate `self.agents.values()`
in dict order, first agent whose `can_handle` returns true wins. -/
def selectAgentForTask (p : AgentM → Bool) : List (String × AgentM) → Option AgentM
  | [] => none
  | (_, a) :: rest => if p a then some a else selectAgentForTask p rest

/-- A concrete registry: agents "x" (tag 0) and "y" (tag 1). -/
def regEx : List (String × AgentM) :=
  [("x", ⟨"x", 0⟩), ("y", ⟨"y", 1⟩)]

/-! ### Dict and planner loop lemmas -/

@[simp] theorem Task.id_mk (i n d : String) (c : TaskComplexity)
    (s : List Task) (dep : List String) (st : String) :
    (Task.mk i n d c s dep st).id = i := rfl

@[simp] theorem Task.name_mk (i n d : String) (c : TaskComplexity)
    (s : List Task) (dep : List String) (st : String) :
    (Task.mk i n d c s dep st).name = n := rfl

@[simp] theorem Task.description_mk (i n d : String) (c : TaskComplexity)
    (s : List Task) (dep : List String) (st : String) :
    (Task.mk i n d c s dep st).description = d := rfl

@[simp] theorem Task.complexity_mk (i n d : String) (c : TaskComplexity)
    (s : List Task) (dep : List String) (st : String) :
    (Task.mk i n d c s dep st).complexity = c := rfl

@[simp] theorem Task.subtasks_mk (i n d : String) (c : TaskComplexity)
    (s : List Task) (dep : List String) (st : String) :
    (Task.mk i n d c s dep st).subtasks = s := rfl

@[simp] theorem Task.dependencies_mk (i n d : String) (c : TaskComplexity)
    (s : List Task) (dep : List String) (st : String) :
    (Task.mk i n d c s dep st).dependencies = dep := rfl

@[simp] theorem Task.status_mk (i n d : String) (c : TaskComplexity)
    (s : List Task) (dep : List String) (st : String) :
    (Task.mk i n d c s dep st).status = st := rfl

theorem dictInsert_map_id (m : List Task) (t : Task) :
    (dictInsert m t).map Task.id =
      if t.id ∈ m.map Task.id then m.map Task.id else m.map Task.id ++ [t.id] := by
  unfold dictInsert
  split
  · rw [List.map_map]
    apply List.map_congr_left
    intro x _
    by_cases hx : x.id = t.id
    · simp [Function.comp, hx]
    · simp [Function.comp, hx]
  · simp

theorem foldl_dictInsert_nodup (ts : List Task) :
    ∀ m : List Task, (m.map Task.id).Nodup → ((ts.foldl dictInsert m).map Task.id).Nodup := by
  induction ts with
  | nil => intro m h; simpa using h
  | cons t ts ih =>
    intro m h
    rw [List.foldl_cons]
    apply ih
    rw [dictInsert_map_id]
    split
    · exact h
    · next hni =>
      exact List.Nodup.append h (List.nodup_singleton _) (by simpa [List.disjoint_singleton] using hni)

theorem mem_foldl_dictInsert (ts : List Task) :
    ∀ (m : List Task) (x : String),
      x ∈ (ts.foldl dictInsert m).map Task.id ↔ x ∈ m.map Task.id ∨ x ∈ ts.map Task.id := by
  induction ts with
  | nil => simp
  | cons t ts ih =>
    intro m x
    rw [List.foldl_cons, ih, dictInsert_map_id]
    split
    · next h =>
      simp only [List.map_cons, List.mem_cons]
      constructor
      · tauto
      · rintro (h1 | h2 | h3)
        · tauto
        · subst h2; tauto
        · tauto
    · simp only [List.mem_append, List.mem_singleton, List.map_cons, List.mem_cons]
      tauto

theorem buildDict_nodup (ts : List Task) : ((buildDict ts).map Task.id).Nodup :=
  foldl_dictInsert_nodup ts [] (by simp)

theorem mem_buildDict (ts : List Task) (x : String) :
    x ∈ (buildDict ts).map Task.id ↔ x ∈ ts.map Task.id := by
  rw [buildDict, mem_foldl_dictInsert]
  simp

theorem foldl_dictInsert_eq_append (ts : List Task) :
    ∀ m : List Task, ((m ++ ts).map Task.id).Nodup → ts.foldl dictInsert m = m ++ ts := by
  induction ts with
  | nil => simp
  | cons t ts ih =>
    intro m h
    have hsplit : (m.map Task.id ++ t.id :: ts.map Task.id).Nodup := by
      simpa using h
    have ht : t.id ∉ m.map Task.id := by
      rw [List.nodup_append] at hsplit
      intro hc
      exact hsplit.2.2 hc (by simp)
    rw [List.foldl_cons, dictInsert, if_neg ht, ih (m ++ [t]) (by simpa using h)]
    simp

theorem buildDict_eq_self (ts : List Task) (h : (ts.map Task.id).Nodup) :
    buildDict ts = ts :=
  foldl_dictInsert_eq_append ts [] (by simpa using h)

theorem dependenciesMet_iff (completed remainingIds : List String) (t : Task) :
    dependenciesMet completed remainingIds t = true ↔
      ∀ dep ∈ t.dependencies, dep ∈ completed ∨ dep ∉ remainingIds := by
  simp [dependenciesMet]

/-- The scheduled ids of a pass are drawn from the remaining ids. -/
theorem schedIds_subset (completed : List String) (st : Task) (rest : List Task) :
    ∀ x ∈ schedIds completed st rest, x ∈ (st :: rest).map Task.id := by
  intro x hx
  rw [schedIds] at hx
  split at hx
  · simp only [List.mem_singleton] at hx
    subst hx
    simp
  · rw [readyIds] at hx
    exact (List.Sublist.map Task.id (List.filter_sublist _)).mem hx

theorem schedIds_nodup (completed : List String) (st : Task) (rest : List Task)
    (h : ((st :: rest).map Task.id).Nodup) : (schedIds completed st rest).Nodup := by
  rw [schedIds]
  split
  · simp
  · exact (List.Sublist.map Task.id (List.filter_sublist _)).nodup h

/-- Some remaining task is always scheduled in a pass (so the loop makes
progress; this is what makes the planner total even under a cycle). -/
theorem schedIds_hits (completed : List String) (st : Task) (rest : List Task) :
    ∃ t ∈ st :: rest, t.id ∈ schedIds completed st rest := by
  rw [schedIds]
  split
  · exact ⟨st, by simp, by simp⟩
  · next h =>
    rw [readyIds] at h ⊢
    match hf : (st :: rest).filter (dependenciesMet completed ((st :: rest).map Task.id)) with
    | [] => exact absurd (by rw [hf]; rfl) h
    | u :: us =>
      refine ⟨u, ?_, ?_⟩
      · exact (List.filter_sublist _).subset (by rw [hf]; simp)
      · simp

/-- The ids remaining after a pass are the previous ids minus the scheduled
ones (deleting dict entries commutes with taking the key list). -/
theorem filter_sched_map_id (remaining : List Task) (sched : List String) :
    ((remaining.filter fun t => decide (t.id ∉ sched)).map Task.id) =
      (remaining.map Task.id).filter fun s => decide (s ∉ sched) := by
  rw [List.filter_map]
  congr 1

/-- Core specification of the planner loop: given enough fuel and distinct
remaining ids, the emitted order has no duplicates and contains exactly the
remaining ids. -/
theorem planLoop_spec :
    ∀ (fuel : Nat) (remaining : List Task) (completed : List String),
      remaining.length ≤ fuel → ((remaining.map Task.id).Nodup) →
      (planLoop fuel remaining completed).Nodup ∧
        ∀ x, x ∈ planLoop fuel remaining completed ↔ x ∈ remaining.map Task.id := by
  intro fuel
  induction fuel with
  | zero =>
    intro remaining completed hf _
    have : remaining = [] := List.length_eq_zero.mp (Nat.le_zero.mp hf)
    subst this
    simp [planLoop]
  | succ fuel ih =>
    intro remaining completed hf hn
    match remaining with
    | [] => simp [planLoop]
    | st :: rest =>
      have hstep : planLoop (fuel + 1) (st :: rest) completed =
          schedIds completed st rest ++
            planLoop fuel ((st :: rest).filter fun t => decide (t.id ∉ schedIds completed st rest))
              (completed ++ schedIds completed st rest) := rfl
      have hless : ((st :: rest).filter fun t => decide (t.id ∉ schedIds completed st rest)).length
          < (st :: rest).length := by
        rw [List.length_filter_lt_length_iff_exists]
        obtain ⟨t, htmem, htid⟩ := schedIds_hits completed st rest
        exact ⟨t, htmem, by simpa using htid⟩
      have hfuel' : ((st :: rest).filter fun t => decide (t.id ∉ schedIds completed st rest)).length
          ≤ fuel := by
        omega
      have hmapfilter := filter_sched_map_id (st :: rest) (schedIds completed st rest)
      have hn' : (((st :: rest).filter fun t =>
          decide (t.id ∉ schedIds completed st rest)).map Task.id).Nodup := by
        rw [hmapfilter]
        exact hn.filter _
      obtain ⟨ihnd, ihmem⟩ := ih _ (completed ++ schedIds completed st rest) hfuel' hn'
      have hmem' : ∀ x, x ∈ planLoop fuel
            ((st :: rest).filter fun t => decide (t.id ∉ schedIds completed st rest))
            (completed ++ schedIds completed st rest) ↔
          x ∈ (st :: rest).map Task.id ∧ x ∉ schedIds completed st rest := by
        intro x
        rw [ihmem, hmapfilter, List.mem_filter]
        simp
      constructor
      · rw [hstep]
        refine List.Nodup.append (schedIds_nodup completed st rest hn) ihnd ?_
        intro x hx1 hx2
        exact ((hmem' x).mp hx2).2 hx1
      · intro x
        rw [hstep, List.mem_append, hmem']
        constructor
        · rintro (h | ⟨h, _⟩)
          · exact schedIds_subset completed st rest x h
          · exact h
        · intro h
          by_cases hs : x ∈ schedIds completed st rest
          · exact Or.inl hs
          · exact Or.inr ⟨h, hs⟩

/-- C1: For every Task `T`, `create_execution_plan T` terminates and returns
a duplicate-free list containing exactly the ids of `T`'s subtasks (the set
`{s.id for s in S}`), even when the dependency lists contain a cycle; if `T`
has no subtasks the result is `[T.id]`. -/
theorem create_execution_plan_is_permutation (T : Task) :
    (T.subtasks = [] → create_execution_plan T = [T.id]) ∧
    (create_execution_plan T).Nodup ∧
    ∀ x, x ∈ create_execution_plan T ↔
      x ∈ (if T.subtasks.isEmpty then [T.id] else T.subtasks.map Task.id) := by
  match hT : T.subtasks with
  | [] =>
    refine ⟨fun _ => ?_, ?_, fun x => ?_⟩ <;> simp [create_execution_plan, hT]
  | st :: rest =>
    have hnd := buildDict_nodup (st :: rest)
    obtain ⟨hnodup, hmem⟩ :=
      planLoop_spec (buildDict (st :: rest)).length (buildDict (st :: rest)) [] le_rfl hnd
    have hplan : create_execution_plan T =
        planLoop (buildDict (st :: rest)).length (buildDict (st :: rest)) [] := by
      simp only [create_execution_plan, hT]
    refine ⟨fun h => absurd h (by simp), by rw [hplan]; exact hnodup, fun x => ?_⟩
    rw [hplan, hmem x, mem_buildDict]
    simp

/-- Witness for C1: the no-subtask task plans to its own id; the two-subtask
cyclic task still yields a duplicate-free plan containing id "a". -/
theorem create_execution_plan_is_permutation_witness :
    create_execution_plan taskNoSubs = ["solo"] ∧
    (create_execution_plan taskCycle).Nodup ∧
    ("a" ∈ create_execution_plan taskCycle ↔
      "a" ∈ (if taskCycle.subtasks.isEmpty then [taskCycle.id]
             else taskCycle.subtasks.map Task.id)) :=
  ⟨(create_execution_plan_is_permutation taskNoSubs).1 rfl,
   (create_execution_plan_is_permutation taskCycle).2.1,
   (create_execution_plan_is_permutation taskCycle).2.2 "a"⟩

/-! ### Non-sibling dependency ids never block scheduling -/

@[simp] theorem resolveToSiblings_id (sibIds : List String) (t : Task) :
    (resolveToSiblings sibIds t).id = t.id := by
  cases t; rfl

@[simp] theorem resolveToSiblings_dependencies (sibIds : List String) (t : Task) :
    (resolveToSiblings sibIds t).dependencies =
      t.dependencies.filter fun d => decide (d ∈ sibIds) := by
  cases t; rfl

theorem map_resolveToSiblings_map_id (sibIds : List String) (l : List Task) :
    (l.map (resolveToSiblings sibIds)).map Task.id = l.map Task.id := by
  rw [List.map_map]
  apply List.map_congr_left
  intro x _
  simp [Function.comp]

theorem dependenciesMet_resolveToSiblings (completed ids sibIds : List String) (t : Task)
    (hsub : ∀ x ∈ ids, x ∈ sibIds) :
    dependenciesMet completed ids (resolveToSiblings sibIds t) =
      dependenciesMet completed ids t := by
  rw [Bool.eq_iff_iff, dependenciesMet_iff, dependenciesMet_iff,
    resolveToSiblings_dependencies]
  constructor
  · intro h dep hdep
    by_cases hin : dep ∈ sibIds
    · exact h dep (List.mem_filter.mpr ⟨hdep, by simpa using hin⟩)
    · exact Or.inr fun hids => hin (hsub dep hids)
  · intro h dep hdep
    exact h dep (List.mem_of_mem_filter hdep)

theorem planLoop_resolveToSiblings (sibIds : List String) :
    ∀ (fuel : Nat) (remaining : List Task) (completed : List String),
      (∀ x ∈ remaining.map Task.id, x ∈ sibIds) →
      planLoop fuel (remaining.map (resolveToSiblings sibIds)) completed =
        planLoop fuel remaining completed := by
  intro fuel
  induction fuel with
  | zero => intro remaining completed _; rfl
  | succ fuel ih =>
    intro remaining completed hsub
    match remaining with
    | [] => rfl
    | st :: rest =>
      have hids := map_resolveToSiblings_map_id sibIds (st :: rest)
      have hready : readyIds completed ((st :: rest).map (resolveToSiblings sibIds)) =
          readyIds completed (st :: rest) := by
        rw [readyIds, readyIds, hids, List.filter_map, List.map_map]
        have h1 : (st :: rest).filter
              (dependenciesMet completed ((st :: rest).map Task.id) ∘ resolveToSiblings sibIds) =
            (st :: rest).filter (dependenciesMet completed ((st :: rest).map Task.id)) :=
          List.filter_congr fun x _ => by
            simpa [Function.comp] using
              dependenciesMet_resolveToSiblings completed ((st :: rest).map Task.id) sibIds x hsub
        rw [h1]
        apply List.map_congr_left
        intro x _
        simp [Function.comp]
      have hsched : schedIds completed (resolveToSiblings sibIds st)
            (rest.map (resolveToSiblings sibIds)) = schedIds completed st rest := by
        rw [schedIds, schedIds]
        have : (resolveToSiblings sibIds st :: rest.map (resolveToSiblings sibIds)) =
            (st :: rest).map (resolveToSiblings sibIds) := rfl
        rw [this, hready]
        simp
      show schedIds completed (resolveToSiblings sibIds st) (rest.map (resolveToSiblings sibIds)) ++ _ = _
      rw [hsched]
      congr 1
      have hfilter : ((st :: rest).map (resolveToSiblings sibIds)).filter
            (fun t => decide (t.id ∉ schedIds completed st rest)) =
          ((st :: rest).filter fun t => decide (t.id ∉ schedIds completed st rest)).map
            (resolveToSiblings sibIds) := by
        rw [List.filter_map]
        rfl
      have hcons2 : resolveToSiblings sibIds st :: rest.map (resolveToSiblings sibIds) =
          (st :: rest).map (resolveToSiblings sibIds) := rfl
      rw [hcons2, hfilter]
      apply ih
      intro x hx
      apply hsub
      rw [filter_sched_map_id] at hx
      exact List.mem_of_mem_filter hx

theorem dictInsert_resolveToSiblings (sibIds : List String) (m : List Task) (t : Task) :
    dictInsert (m.map (resolveToSiblings sibIds)) (resolveToSiblings sibIds t) =
      (dictInsert m t).map (resolveToSiblings sibIds) := by
  rw [dictInsert, dictInsert, resolveToSiblings_id, map_resolveToSiblings_map_id]
  split
  · rw [List.map_map, List.map_map]
    apply List.map_congr_left
    intro x _
    by_cases h : x.id = t.id <;> simp [Function.comp, h]
  · simp

theorem foldl_dictInsert_resolveToSiblings (sibIds : List String) :
    ∀ (ts m : List Task),
      (ts.map (resolveToSiblings sibIds)).foldl dictInsert (m.map (resolveToSiblings sibIds)) =
        (ts.foldl dictInsert m).map (resolveToSiblings sibIds) := by
  intro ts
  induction ts with
  | nil => intro m; rfl
  | cons t ts ih =>
    intro m
    rw [List.map_cons, List.foldl_cons, List.foldl_cons,
      dictInsert_resolveToSiblings, ih]

theorem buildDict_resolveToSiblings (sibIds : List String) (ts : List Task) :
    buildDict (ts.map (resolveToSiblings sibIds)) =
      (buildDict ts).map (resolveToSiblings sibIds) := by
  rw [buildDict, buildDict]
  have := foldl_dictInsert_resolveToSiblings sibIds ts []
  simpa using this

/-- Dropping every dependency id that names no sibling does not change the
execution plan: an id outside the sibling set never blocks scheduling. -/
theorem plan_dropNonSiblingDeps (T : Task) :
    create_execution_plan (dropNonSiblingDeps T) = create_execution_plan T := by
  match hT : T.subtasks with
  | [] =>
    simp [create_execution_plan, dropNonSiblingDeps, hT]
  | st :: rest =>
    have hsubs : (dropNonSiblingDeps T).subtasks =
        resolveToSiblings ((st :: rest).map Task.id) st ::
          rest.map (resolveToSiblings ((st :: rest).map Task.id)) := by
      simp [dropNonSiblingDeps, hT]
    have h1 : create_execution_plan (dropNonSiblingDeps T) =
        planLoop
          (buildDict ((st :: rest).map (resolveToSiblings ((st :: rest).map Task.id)))).length
          (buildDict ((st :: rest).map (resolveToSiblings ((st :: rest).map Task.id)))) [] := by
      simp only [create_execution_plan, hsubs]
      rfl
    have h2 : create_execution_plan T =
        planLoop (buildDict (st :: rest)).length (buildDict (st :: rest)) [] := by
      simp only [create_execution_plan, hT]
    rw [h1, h2, buildDict_resolveToSiblings, List.length_map]
    exact planLoop_resolveToSiblings ((st :: rest).map Task.id) _ _ []
      fun x hx => (mem_buildDict (st :: rest) x).mp hx

/-! ### Dependency ordering on acyclic sibling graphs -/

/-- Every planner pass strictly shrinks the remaining map. -/
theorem planStep_progress (completed : List String) (st : Task) (rest : List Task) :
    ((st :: rest).filter fun t => decide (t.id ∉ schedIds completed st rest)).length <
      (st :: rest).length := by
  rw [List.length_filter_lt_length_iff_exists]
  obtain ⟨t, htmem, htid⟩ := schedIds_hits completed st rest
  exact ⟨t, htmem, by simpa using htid⟩

/-- If a rank function witnesses acyclicity of the dependency relation among
the remaining subtasks, the loop never stalls and every internal dependency
is emitted before its dependent. -/
theorem planLoop_order (rank : String → Nat) :
    ∀ (fuel : Nat) (remaining : List Task) (completed : List String),
      remaining.length ≤ fuel →
      ((remaining.map Task.id).Nodup) →
      (∀ c ∈ completed, c ∉ remaining.map Task.id) →
      (∀ t ∈ remaining, ∀ d ∈ t.dependencies, d ∈ remaining.map Task.id → rank d < rank t.id) →
      ∀ s2 ∈ remaining, ∀ d ∈ s2.dependencies, d ∈ remaining.map Task.id →
        [d, s2.id].Sublist (planLoop fuel remaining completed) := by
  intro fuel
  induction fuel with
  | zero =>
    intro remaining completed hf _ _ _ s2 hs2 _ _ _
    have : remaining = [] := List.length_eq_zero.mp (Nat.le_zero.mp hf)
    subst this
    simp at hs2
  | succ fuel ih =>
    intro remaining completed hf hnd hcomp hacyc s2 hs2 d hd hdin
    match remaining with
    | [] => simp at hs2
    | st :: rest =>
      have hready : readyIds completed (st :: rest) ≠ [] := by
        obtain ⟨t0, ht0⟩ : ∃ t0, t0 ∈ List.argmin (fun t => rank t.id) (st :: rest) := by
          match h0 : List.argmin (fun t => rank t.id) (st :: rest) with
          | some t0 => exact ⟨t0, Option.mem_def.mpr h0⟩
          | none => exact absurd (List.argmin_eq_none.mp h0) (by simp)
        have ht0mem : t0 ∈ st :: rest := List.argmin_mem ht0
        have hmet : dependenciesMet completed ((st :: rest).map Task.id) t0 = true := by
          rw [dependenciesMet_iff]
          intro dep hdep
          refine Or.inr fun hdepin => ?_
          obtain ⟨t1, ht1mem, ht1id⟩ := List.mem_map.mp hdepin
          have hlt : rank dep < rank t0.id := hacyc t0 ht0mem dep hdep hdepin
          have hnlt0 := List.not_lt_of_mem_argmin ht1mem ht0
          have hnlt : ¬rank t1.id < rank t0.id := hnlt0
          rw [ht1id] at hnlt
          exact hnlt hlt
        intro hempty
        have hmemf : t0 ∈ (st :: rest).filter
            (dependenciesMet completed ((st :: rest).map Task.id)) :=
          List.mem_filter.mpr ⟨ht0mem, hmet⟩
        have := List.mem_map_of_mem Task.id hmemf
        rw [← readyIds, hempty] at this
        simp at this
      have hsched : schedIds completed st rest = readyIds completed (st :: rest) := by
        rw [schedIds, if_neg hready]
      have hs2notsched : s2.id ∉ schedIds completed st rest := by
        rw [hsched, readyIds]
        intro hmem
        obtain ⟨u, humem, huid⟩ := List.mem_map.mp hmem
        obtain ⟨humem', humet⟩ := List.mem_filter.mp humem
        have hu : u = s2 := List.inj_on_of_nodup_map hnd humem' hs2 huid
        subst hu
        rw [dependenciesMet_iff] at humet
        rcases humet d hd with hc | hnin
        · exact hcomp d hc hdin
        · exact hnin hdin
      have hs2' : s2 ∈ (st :: rest).filter fun t => decide (t.id ∉ schedIds completed st rest) :=
        List.mem_filter.mpr ⟨hs2, by simpa using hs2notsched⟩
      have hf' : ((st :: rest).filter fun t =>
          decide (t.id ∉ schedIds completed st rest)).length ≤ fuel := by
        have := planStep_progress completed st rest
        omega
      have hnd' : (((st :: rest).filter fun t =>
          decide (t.id ∉ schedIds completed st rest)).map Task.id).Nodup := by
        rw [filter_sched_map_id]
        exact hnd.filter _
      have hcomp' : ∀ c ∈ completed ++ schedIds completed st rest,
          c ∉ ((st :: rest).filter fun t =>
            decide (t.id ∉ schedIds completed st rest)).map Task.id := by
        intro c hc
        rw [filter_sched_map_id, List.mem_filter]
        rintro ⟨hcin, hcnot⟩
        rcases List.mem_append.mp hc with h | h
        · exact hcomp c h hcin
        · simp at hcnot
          exact hcnot h
      have hacyc' : ∀ t ∈ (st :: rest).filter fun t =>
            decide (t.id ∉ schedIds completed st rest),
          ∀ d' ∈ t.dependencies,
            d' ∈ ((st :: rest).filter fun t =>
              decide (t.id ∉ schedIds completed st rest)).map Task.id →
            rank d' < rank t.id := by
        intro t ht d' hd' hd'in
        refine hacyc t (List.mem_of_mem_filter ht) d' hd' ?_
        rw [filter_sched_map_id] at hd'in
        exact List.mem_of_mem_filter hd'in
      have hstep : planLoop (fuel + 1) (st :: rest) completed =
          schedIds completed st rest ++
            planLoop fuel ((st :: rest).filter fun t =>
              decide (t.id ∉ schedIds completed st rest))
              (completed ++ schedIds completed st rest) := rfl
      rw [hstep]
      by_cases hdsched : d ∈ schedIds completed st rest
      · have hrec : s2.id ∈ planLoop fuel ((st :: rest).filter fun t =>
            decide (t.id ∉ schedIds completed st rest))
            (completed ++ schedIds completed st rest) := by
          obtain ⟨_, hmem⟩ := planLoop_spec fuel _ (completed ++ schedIds completed st rest) hf' hnd'
          rw [hmem, filter_sched_map_id, List.mem_filter]
          exact ⟨List.mem_map_of_mem Task.id hs2, by simpa using hs2notsched⟩
        have hsub : List.Sublist ([d] ++ [s2.id]) (schedIds completed st rest ++
            planLoop fuel ((st :: rest).filter fun t =>
              decide (t.id ∉ schedIds completed st rest))
              (completed ++ schedIds completed st rest)) :=
          List.Sublist.append (List.singleton_sublist.mpr hdsched)
            (List.singleton_sublist.mpr hrec)
        simpa using hsub
      · have hdin' : d ∈ ((st :: rest).filter fun t =>
            decide (t.id ∉ schedIds completed st rest)).map Task.id := by
          rw [filter_sched_map_id, List.mem_filter]
          exact ⟨hdin, by simpa using hdsched⟩
        exact (ih _ _ hf' hnd' hcomp' hacyc' s2 hs2' d hd hdin').trans
          (List.sublist_append_right _ _)

/-- C2: On a task whose sibling dependency graph is acyclic (witnessed by a
rank function) with well-formed (duplicate-free) subtask ids, the planner
emits a dependency's id before its dependent's id; and dropping every
dependency id that names no sibling leaves the plan unchanged (such ids never
block scheduling). -/
theorem plan_orders_dependencies (T : Task) (rank : String → Nat)
    (hnd : (T.subtasks.map Task.id).Nodup)
    (hacyc : ∀ t ∈ T.subtasks, ∀ d ∈ t.dependencies,
      d ∈ T.subtasks.map Task.id → rank d < rank t.id)
    (s1 s2 : Task) (h1 : s1 ∈ T.subtasks) (h2 : s2 ∈ T.subtasks)
    (hdep : s1.id ∈ s2.dependencies) :
    [s1.id, s2.id].Sublist (create_execution_plan T) ∧
      create_execution_plan (dropNonSiblingDeps T) = create_execution_plan T := by
  refine ⟨?_, plan_dropNonSiblingDeps T⟩
  match hT : T.subtasks with
  | [] =>
    rw [hT] at h1
    simp at h1
  | st :: rest =>
    rw [hT] at hnd hacyc h1 h2
    have hplan : create_execution_plan T =
        planLoop (buildDict (st :: rest)).length (buildDict (st :: rest)) [] := by
      simp only [create_execution_plan, hT]
    rw [hplan, buildDict_eq_self _ hnd]
    exact planLoop_order rank (st :: rest).length (st :: rest) [] le_rfl hnd (by simp)
      hacyc s2 h2 s1.id hdep (List.mem_map_of_mem Task.id h1)

/-- Witness for C2: on the acyclic two-subtask example (where subtask "b",
listed first, depends on sibling "a" and on the dangling id "zz"), id "a" is
scheduled before id "b", and dropping "zz" leaves the plan unchanged. -/
theorem plan_orders_dependencies_witness :
    [("a" : String), "b"].Sublist (create_execution_plan taskChain) ∧
      create_execution_plan (dropNonSiblingDeps taskChain) =
        create_execution_plan taskChain := by
  have h := plan_orders_dependencies taskChain (fun s => if s = "b" then 1 else 0)
    (by decide) (by decide)
    (mkLeaf "a" []) (mkLeaf "b" ["a", "zz"])
    (show mkLeaf "a" [] ∈ [mkLeaf "b" ["a", "zz"], mkLeaf "a" []] from
      List.mem_cons_of_mem _ (List.mem_cons_self _ _))
    (show mkLeaf "b" ["a", "zz"] ∈ [mkLeaf "b" ["a", "zz"], mkLeaf "a" []] from
      List.mem_cons_self _ _)
    (by decide)
  simpa using h

/-! ### Cycle-breaking picks the first remaining dict entry -/

/-- C3 counterexample: on `taskCycle` the first pass is a genuine stall (no
subtask has its dependencies met), the lowest remaining id is "a", yet the
planner schedules "b" first — the claim that the stall is broken with the
lowest remaining id is false. -/
theorem plan_cycle_break_not_lowest_id :
    create_execution_plan taskCycle = ["b", "a"] ∧
      (∀ t ∈ buildDict taskCycle.subtasks,
        dependenciesMet [] ((buildDict taskCycle.subtasks).map Task.id) t = false) ∧
      ("a" : String) < "b" := by
  refine ⟨by decide, by decide, ?_⟩
  rw [String.lt_iff_toList_lt]
  decide

/-- C3 amended: when a pass finds no subtask whose dependencies are met, the
planner force-schedules the first remaining subtask in dict insertion order
(`list(remaining_tasks.keys())[0]`), not the one with the lowest id. -/
theorem plan_cycle_break_first_inserted (T : Task) (st : Task) (rest : List Task)
    (hdict : buildDict T.subtasks = st :: rest)
    (hstall : ∀ t ∈ st :: rest,
      dependenciesMet [] ((st :: rest).map Task.id) t = false) :
    (create_execution_plan T).head? = some st.id := by
  match hT : T.subtasks with
  | [] =>
    rw [hT] at hdict
    simp [buildDict] at hdict
  | u :: us =>
    have hplan : create_execution_plan T =
        planLoop (buildDict (u :: us)).length (buildDict (u :: us)) [] := by
      simp only [create_execution_plan, hT]
    rw [hT] at hdict
    rw [hplan, hdict]
    have hreadyNil : readyIds [] (st :: rest) = [] := by
      rw [readyIds]
      have hfil : (st :: rest).filter (dependenciesMet [] ((st :: rest).map Task.id)) = [] := by
        rw [List.filter_eq_nil_iff]
        intro a ha
        simpa using hstall a ha
      rw [hfil]
      rfl
    have hsched : schedIds [] st rest = [st.id] := by
      rw [schedIds, hreadyNil]
      simp
    have hstep : planLoop (rest.length + 1) (st :: rest) [] =
        schedIds [] st rest ++
          planLoop rest.length ((st :: rest).filter fun t =>
            decide (t.id ∉ schedIds [] st rest)) ([] ++ schedIds [] st rest) := rfl
    rw [List.length_cons, hstep, hsched]
    rfl

/-- Witness for C3: applying the amended statement to the concrete cyclic
task schedules "b" (the first-inserted subtask) first. -/
theorem plan_cycle_break_first_inserted_witness :
    (create_execution_plan taskCycle).head? = some ((mkLeaf "b" ["a"]).id) :=
  plan_cycle_break_first_inserted taskCycle (mkLeaf "b" ["a"]) [mkLeaf "a" ["b"]]
    rfl (by decide)

/-! ### Decomposition: fallback task and dependency rewriting -/

/-- C4: whichever decomposition path runs, if it fails with any exception
`decompose_task` returns (rather than raising) the degenerate single-node
task: no subtasks, simple complexity, name and description both the original
request verbatim. -/
theorem decompose_task_fallback (task_description fallbackId e : String) :
    (decompose_task task_description fallbackId (.error e)).subtasks = [] ∧
    (decompose_task task_description fallbackId (.error e)).complexity = .simple ∧
    (decompose_task task_description fallbackId (.error e)).name = task_description ∧
    (decompose_task task_description fallbackId (.error e)).description = task_description :=
  ⟨rfl, rfl, rfl, rfl⟩

@[simp] theorem resolveDeps_name (m : List (String × String)) (t : Task) :
    (resolveDeps m t).name = t.name := by
  cases t; rfl

@[simp] theorem resolveDeps_id (m : List (String × String)) (t : Task) :
    (resolveDeps m t).id = t.id := by
  cases t; rfl

@[simp] theorem resolveDeps_dependencies (m : List (String × String)) (t : Task) :
    (resolveDeps m t).dependencies = t.dependencies.filterMap fun dn => pyLookup m dn := by
  cases t; rfl

theorem pyLookup_mem {β : Type} :
    ∀ (m : List (String × β)) (k : String) (v : β), pyLookup m k = some v → (k, v) ∈ m := by
  intro m
  induction m with
  | nil =>
    intro k v h
    simp [pyLookup] at h
  | cons p rest ih =>
    intro k v h
    match p with
    | (k', v') =>
      rw [pyLookup] at h
      split at h
      · next heq =>
        simp only [Option.some.injEq] at h
        subst heq
        subst h
        exact List.mem_cons_self _ _
      · exact List.mem_cons_of_mem _ (ih k v h)

theorem pyLookup_eq_none {β : Type} :
    ∀ (m : List (String × β)) (k : String), k ∉ m.map Prod.fst → pyLookup m k = none := by
  intro m
  induction m with
  | nil => intro k _; rfl
  | cons p rest ih =>
    intro k hk
    match p with
    | (k', v') =>
      have h1 : ¬k' = k := fun heq => hk (by simp [heq])
      rw [pyLookup, if_neg h1]
      exact ih k fun hmem => hk (by simp only [List.map_cons, List.mem_cons]; exact Or.inr hmem)

theorem mem_pyInsert {β : Type} (m : List (String × β)) (k' : String) (v' : β)
    (p : String × β) (hp : p ∈ pyInsert m k' v') : p ∈ m ∨ p = (k', v') := by
  rw [pyInsert] at hp
  split at hp
  · obtain ⟨q, hq, hqe⟩ := List.mem_map.mp hp
    by_cases h : q.1 = k'
    · right
      rw [← hqe]
      simp [h]
    · left
      rw [← hqe]
      simp only [h, if_false]
      exact hq
  · rcases List.mem_append.mp hp with h | h
    · exact Or.inl h
    · right
      simpa using h

theorem mem_foldl_subtaskMap :
    ∀ (ts : List Task) (m : List (String × String)) (k v : String),
      (k, v) ∈ ts.foldl (fun m t => pyInsert m t.name t.id) m →
      (k, v) ∈ m ∨ ∃ t ∈ ts, t.name = k ∧ t.id = v := by
  intro ts
  induction ts with
  | nil =>
    intro m k v h
    exact Or.inl (by simpa using h)
  | cons t ts ih =>
    intro m k v h
    rw [List.foldl_cons] at h
    rcases ih _ k v h with hmem | ⟨u, hu, hn, hi⟩
    · rcases mem_pyInsert _ _ _ _ hmem with h1 | h1
      · exact Or.inl h1
      · injection h1 with hk hv
        exact Or.inr ⟨t, List.mem_cons_self _ _, hk.symm, hv.symm⟩
    · exact Or.inr ⟨u, List.mem_cons_of_mem _ hu, hn, hi⟩

theorem pyInsert_map_fst {β : Type} (m : List (String × β)) (k : String) (v : β) :
    (pyInsert m k v).map Prod.fst =
      if k ∈ m.map Prod.fst then m.map Prod.fst else m.map Prod.fst ++ [k] := by
  rw [pyInsert]
  split
  · rw [List.map_map]
    apply List.map_congr_left
    intro p _
    by_cases h : p.1 = k <;> simp [Function.comp, h]
  · simp

theorem mem_keys_foldl_subtaskMap :
    ∀ (ts : List Task) (m : List (String × String)) (k : String),
      (k ∈ (ts.foldl (fun m t => pyInsert m t.name t.id) m).map Prod.fst) ↔
        k ∈ m.map Prod.fst ∨ k ∈ ts.map Task.name := by
  intro ts
  induction ts with
  | nil => simp
  | cons t ts ih =>
    intro m k
    rw [List.foldl_cons, ih, pyInsert_map_fst]
    split
    · next h =>
      simp only [List.map_cons, List.mem_cons]
      constructor
      · tauto
      · rintro (h1 | h2 | h3)
        · tauto
        · subst h2
          tauto
        · tauto
    · simp only [List.mem_append, List.mem_singleton, List.map_cons, List.mem_cons]
      tauto

theorem foldl_subtaskMap_preserve (f : Task → Task)
    (hf : ∀ t, (f t).name = t.name ∧ (f t).id = t.id) :
    ∀ (ts : List Task) (m : List (String × String)),
      (ts.map f).foldl (fun m t => pyInsert m t.name t.id) m =
        ts.foldl (fun m t => pyInsert m t.name t.id) m := by
  intro ts
  induction ts with
  | nil => intro m; rfl
  | cons t ts ih =>
    intro m
    rw [List.map_cons, List.foldl_cons, List.foldl_cons, (hf t).1, (hf t).2, ih]

/-- Core of C5: the subtasks built by either decomposition loop, after the
dependency rewrite, satisfy `DepsResolved`. -/
theorem depsResolved_build (subsData : List SubtaskData) (subIds : List String) :
    DepsResolved subsData
      ((mkSubtasks subsData subIds).map
        (resolveDeps (buildSubtaskMap (mkSubtasks subsData subIds)))) := by
  have hpres : ∀ t, (resolveDeps (buildSubtaskMap (mkSubtasks subsData subIds)) t).name = t.name ∧
      (resolveDeps (buildSubtaskMap (mkSubtasks subsData subIds)) t).id = t.id :=
    fun t => ⟨resolveDeps_name _ t, resolveDeps_id _ t⟩
  have hmapeq : buildSubtaskMap ((mkSubtasks subsData subIds).map
      (resolveDeps (buildSubtaskMap (mkSubtasks subsData subIds)))) =
      buildSubtaskMap (mkSubtasks subsData subIds) := by
    rw [buildSubtaskMap, buildSubtaskMap]
    exact foldl_subtaskMap_preserve _ hpres (mkSubtasks subsData subIds) []
  have hidseq : ((mkSubtasks subsData subIds).map
      (resolveDeps (buildSubtaskMap (mkSubtasks subsData subIds)))).map Task.id =
      (mkSubtasks subsData subIds).map Task.id := by
    rw [List.map_map]
    apply List.map_congr_left
    intro t _
    simp [Function.comp]
  have hnameseq : ((mkSubtasks subsData subIds).map
      (resolveDeps (buildSubtaskMap (mkSubtasks subsData subIds)))).map Task.name =
      (mkSubtasks subsData subIds).map Task.name := by
    rw [List.map_map]
    apply List.map_congr_left
    intro t _
    simp [Function.comp]
  refine ⟨?_, ?_, ?_, ?_⟩
  · intro st hst d hd
    obtain ⟨u, hu, hue⟩ := List.mem_map.mp hst
    rw [← hue, resolveDeps_dependencies] at hd
    obtain ⟨dn, _, hlk⟩ := List.mem_filterMap.mp hd
    have hmem := pyLookup_mem _ dn d hlk
    rw [buildSubtaskMap] at hmem
    rcases mem_foldl_subtaskMap _ [] dn d hmem with h0 | ⟨t1, ht1, _, hi1⟩
    · simp at h0
    · rw [hidseq, ← hi1]
      exact List.mem_map_of_mem Task.id ht1
  · intro dn i hlk
    rw [hmapeq] at hlk
    have hmem := pyLookup_mem _ dn i hlk
    rw [buildSubtaskMap] at hmem
    rcases mem_foldl_subtaskMap _ [] dn i hmem with h0 | ⟨t1, ht1, hn1, hi1⟩
    · simp at h0
    · exact ⟨resolveDeps (buildSubtaskMap (mkSubtasks subsData subIds)) t1,
        List.mem_map_of_mem _ ht1,
        by rw [(hpres t1).1, hn1], by rw [(hpres t1).2, hi1]⟩
  · intro dn hdn
    rw [hmapeq]
    apply pyLookup_eq_none
    intro hk
    rw [buildSubtaskMap] at hk
    rcases (mem_keys_foldl_subtaskMap _ [] dn).mp hk with h0 | h1
    · simp at h0
    · rw [hnameseq] at hdn
      exact hdn h1
  · intro k hk hk2
    rw [hmapeq, List.get_eq_getElem, List.get_eq_getElem]
    have hk' : k < (mkSubtasks subsData subIds).length := by
      simpa using hk
    rw [List.getElem_map]
    have hkz : k < (subsData.zip subIds).length := by
      simpa [mkSubtasks] using hk'
    have hkid : k < subIds.length :=
      (lt_min_iff.mp (by rwa [List.length_zip] at hkz)).2
    have hsubget : (mkSubtasks subsData subIds)[k] =
        Task.mk (subsData.zip subIds)[k].2 (subsData.zip subIds)[k].1.name
          (subsData.zip subIds)[k].1.description .simple []
          (subsData.zip subIds)[k].1.dependencies "pending" := by
      simp only [mkSubtasks, List.getElem_map]
    rw [resolveDeps_dependencies, hsubget]
    have hzip : (subsData.zip subIds)[k] =
        (subsData.get ⟨k, hk2⟩, subIds.get ⟨k, hkid⟩) := by
      rw [List.get_eq_getElem, List.get_eq_getElem]
      exact List.getElem_zip
    rw [hzip]
    rfl

/-- C5: after a successful decomposition (either path), every dependency
entry of every subtask is a freshly built sibling's id; a dependency name is
resolved exactly to the id of a sibling carrying that name, names with no
matching sibling are silently dropped, and each subtask's final dependency
list is its raw dependency-name list resolved through the sibling
name-to-id map. -/
theorem decompose_resolves_dependencies
    (analysis : StructuredTaskAnalysis) (mainId : String) (subIds : List String)
    (t : Task) (h : decomposeTaskStructured analysis mainId subIds = .ok t)
    (response : TradResponse) (complexityResult : TaskComplexity)
    (task_description mainId2 : String) :
    DepsResolved analysis.subtasks t.subtasks ∧
    DepsResolved response.subtasks
      (decomposeTaskTraditional response complexityResult
        task_description mainId2 subIds).subtasks := by
  constructor
  · rw [decomposeTaskStructured] at h
    split at h
    · exact absurd h (by simp)
    · simp only [Except.ok.injEq] at h
      rw [← h]
      simpa using depsResolved_build analysis.subtasks subIds
  · rw [decomposeTaskTraditional]
    simpa using depsResolved_build response.subtasks subIds

/-- Witness for C5: on `exAnalysis` the structured path succeeds with
`exStructuredTask` (sibling name "beta" rewritten to id "i2", dangling name
"ghost" dropped), and both paths satisfy `DepsResolved`. -/
theorem decompose_resolves_dependencies_witness :
    decomposeTaskStructured exAnalysis "m" ["i1", "i2"] = .ok exStructuredTask ∧
    DepsResolved exAnalysis.subtasks exStructuredTask.subtasks ∧
    DepsResolved exResponse.subtasks
      (decomposeTaskTraditional exResponse .medium "req" "m2" ["i1", "i2"]).subtasks := by
  have h := decompose_resolves_dependencies exAnalysis "m" ["i1", "i2"] exStructuredTask
    rfl exResponse .medium "req" "m2"
  exact ⟨rfl, h.1, h.2⟩

/-! ### Intent recognition: fail-open default -/

/-- C6: both intent-recognition entry points are total and always yield one
of the four enumerated intent types; a failed classification call, and a
classifier output whose label is outside the enumeration, both yield the
casual_chat default. -/
theorem recognize_intent_fail_open :
    (∀ raw, (recognize_intent raw).type = .casual_chat ∨
      (recognize_intent raw).type = .complex_task ∨
      (recognize_intent raw).type = .information_query ∨
      (recognize_intent raw).type = .task_execution) ∧
    (∀ e, (recognize_intent (.error e)).type = .casual_chat) ∧
    (∀ r : IntentDictResponse,
      (IntentType.ofString (r.type?.getD "casual_chat")).toOption = none →
      (recognize_intent (.ok r)).type = .casual_chat) ∧
    (∀ raw, (recognize_intent_structured raw).type = .casual_chat ∨
      (recognize_intent_structured raw).type = .complex_task ∨
      (recognize_intent_structured raw).type = .information_query ∨
      (recognize_intent_structured raw).type = .task_execution) ∧
    (∀ e, (recognize_intent_structured (.error e)).type = .casual_chat) ∧
    (∀ r : StructuredIntentResult, (IntentType.ofString r.type).toOption = none →
      (recognize_intent_structured (.ok r)).type = .casual_chat) := by
  refine ⟨?_, fun e => rfl, ?_, ?_, fun e => rfl, ?_⟩
  · intro raw
    cases hy : (recognize_intent raw).type <;> simp [hy]
  · intro r h
    match hof : IntentType.ofString (r.type?.getD "casual_chat") with
    | .ok ty =>
      rw [hof] at h
      simp [Except.toOption] at h
    | .error e' =>
      simp [recognize_intent, hof, Except.bind]
  · intro raw
    cases hy : (recognize_intent_structured raw).type <;> simp [hy]
  · intro r h
    match hof : IntentType.ofString r.type with
    | .ok ty =>
      rw [hof] at h
      simp [Except.toOption] at h
    | .error e' =>
      simp [recognize_intent_structured, hof, Except.bind]

/-- Witness for C6: the out-of-enumeration label "banana" defaults to
casual_chat on both paths. -/
theorem recognize_intent_fail_open_witness :
    (recognize_intent (.ok ⟨some "banana", some (9/10)⟩)).type = .casual_chat ∧
    (recognize_intent_structured (.ok ⟨"banana", 9/10⟩)).type = .casual_chat :=
  ⟨recognize_intent_fail_open.2.2.1 ⟨some "banana", some (9/10)⟩ (by rfl),
   recognize_intent_fail_open.2.2.2.2.2 ⟨"banana", 9/10⟩ (by rfl)⟩

/-! ### Information-query branch: web-search fallback and tool calls -/

/-- C7 counterexample: the knowledge-base lookup returns the "no relevant
information" sentinel (empty hit list), yet `tool_calls` is empty, because
the web-search outcome carries no `"results"` key — so "sentinel implies a
web_search tool call" is false as stated. -/
theorem information_query_sentinel_no_results_counterexample :
    containsNoInfoSentinel (search_and_format (.ok [])) = true ∧
    (handleInformationQuery "q" (search_and_format (.ok [])) ⟨none⟩ "ans").tool_calls = [] :=
  ⟨by decide, rfl⟩

/-- C7 amended: in the sentinel case a web_search tool call is recorded only
when the web search yields a present and non-empty results list; with a
missing `"results"` key or an empty list `tool_calls` stays empty; without
the sentinel (real knowledge-base content) `tool_calls` is empty. -/
theorem information_query_toolcalls (user_input rag_results llmAnswer : String)
    (searchResult : SearchResultM) :
    (containsNoInfoSentinel rag_results = true →
      ∀ rs, searchResult.results? = some rs → rs ≠ [] →
        (handleInformationQuery user_input rag_results searchResult llmAnswer).tool_calls =
          [⟨"web_search", user_input, rs⟩]) ∧
    (containsNoInfoSentinel rag_results = true → searchResult.results? = none →
      (handleInformationQuery user_input rag_results searchResult llmAnswer).tool_calls = []) ∧
    (containsNoInfoSentinel rag_results = true → searchResult.results? = some [] →
      (handleInformationQuery user_input rag_results searchResult llmAnswer).tool_calls = []) ∧
    (containsNoInfoSentinel rag_results = false →
      (handleInformationQuery user_input rag_results searchResult llmAnswer).tool_calls = []) := by
  refine ⟨?_, ?_, ?_, ?_⟩
  · intro hs rs hrs hne
    simp [handleInformationQuery, hs, hrs, hne]
  · intro hs hrs
    simp [handleInformationQuery, hs, hrs]
  · intro hs hrs
    simp [handleInformationQuery, hs, hrs]
  · intro hs
    simp [handleInformationQuery, hs]

/-- Witness for C7: with the sentinel and one web hit the web_search call is
recorded; with real knowledge-base content no tool call is recorded. -/
theorem information_query_toolcalls_witness :
    (handleInformationQuery "q" (search_and_format (.ok []))
        ⟨some [⟨"t", "u", "s"⟩]⟩ "ans").tool_calls =
      [⟨"web_search", "q", [⟨"t", "u", "s"⟩]⟩] ∧
    (handleInformationQuery "q" (search_and_format (.ok [⟨"doc", "src"⟩]))
        ⟨some [⟨"t", "u", "s"⟩]⟩ "ans").tool_calls = [] :=
  ⟨(information_query_toolcalls "q" (search_and_format (.ok []))
      "ans" ⟨some [⟨"t", "u", "s"⟩]⟩).1 (by decide) [⟨"t", "u", "s"⟩] rfl (by decide),
   (information_query_toolcalls "q" (search_and_format (.ok [⟨"doc", "src"⟩]))
      "ans" ⟨some [⟨"t", "u", "s"⟩]⟩).2.2.2 (by decide)⟩

/-! ### Coordinator-stage exceptions in the turn pipeline -/

/-- C8 counterexample: when the coordinate stage raises "boom", the pipeline
appends the system_message with the error text and returns successfully, but
`process_message`'s response is the fixed fallback apology, not the error
text — "returned response content equal to the error text" is false. -/
theorem process_message_error_fallback_counterexample :
    (process_message "hi" "user" "u1" "c1" (.ok []) (.error "boom")).response =
      "抱歉，我暂时无法处理您的请求。" ∧
    (process_message "hi" "user" "u1" "c1" (.ok []) (.error "boom")).response ≠
      "处理过程中出现错误: boom" ∧
    simpleWorkflow [⟨"u1", .user_input, "hi", "user", none, none, none⟩] (.ok [])
        (.error "boom") "c1" =
      [⟨"u1", .user_input, "hi", "user", none, none, none⟩,
       ⟨"c1", .system_message, "处理过程中出现错误: boom", "system", none, none, none⟩] := by
  refine ⟨rfl, ?_, rfl⟩
  decide

/-- C8 amended: an exception in the coordinate stage appends a
system_message carrying the error text (instead of an agent_response) and the
turn still returns successfully — but with the fixed fallback reply
"抱歉，我暂时无法处理您的请求。" and confidence 0, not the error text
(assuming the retrieved history carries no agent_response of its own). -/
theorem coordinator_error_appends_system_message
    (user_input userId userMsgId coordMsgId e : String)
    (hist : List MessageM) (hhist : ∀ m ∈ hist, m.type ≠ .agent_response) :
    simpleWorkflow [⟨userMsgId, .user_input, user_input, userId, none, none, none⟩]
        (.ok hist) (.error e) coordMsgId =
      ⟨userMsgId, .user_input, user_input, userId, none, none, none⟩ :: hist ++
        [⟨coordMsgId, .system_message, "处理过程中出现错误: " ++ e, "system",
          none, none, none⟩] ∧
    process_message user_input userId userMsgId coordMsgId (.ok hist) (.error e) =
      ⟨"抱歉，我暂时无法处理您的请求。", 0, [], none⟩ := by
  have h1 : simpleWorkflow [⟨userMsgId, .user_input, user_input, userId, none, none, none⟩]
      (.ok hist) (.error e) coordMsgId =
      ⟨userMsgId, .user_input, user_input, userId, none, none, none⟩ :: hist ++
        [⟨coordMsgId, .system_message, "处理过程中出现错误: " ++ e, "system",
          none, none, none⟩] := by
    simp [simpleWorkflow, coordinatorNode]
  refine ⟨h1, ?_⟩
  have hfil : ((⟨userMsgId, .user_input, user_input, userId, none, none, none⟩ : MessageM) ::
      hist ++
      [(⟨coordMsgId, .system_message, "处理过程中出现错误: " ++ e, "system",
        none, none, none⟩ : MessageM)]).filter
      (fun m => decide (m.type = .agent_response)) = [] := by
    rw [List.filter_eq_nil_iff]
    intro m hm
    suffices hmt : m.type ≠ MessageType.agent_response by simpa using hmt
    rcases List.mem_cons.mp hm with h | h2
    · subst h
      simp
    · rcases List.mem_append.mp h2 with h3 | h4
      · exact hhist m h3
      · have h5 := List.mem_singleton.mp h4
        subst h5
        simp
  simp only [process_message, h1, hfil]
  rfl

/-- Witness for C8: concrete turn with empty history and a raising
coordinate stage. -/
theorem coordinator_error_appends_system_message_witness :
    simpleWorkflow [⟨"u1", .user_input, "hi", "user", none, none, none⟩]
        (.ok []) (.error "boom") "c1" =
      ⟨"u1", .user_input, "hi", "user", none, none, none⟩ :: [] ++
        [⟨"c1", .system_message, "处理过程中出现错误: " ++ "boom", "system",
          none, none, none⟩] ∧
    process_message "hi" "user" "u1" "c1" (.ok []) (.error "boom") =
      ⟨"抱歉，我暂时无法处理您的请求。", 0, [], none⟩ :=
  coordinator_error_appends_system_message "hi" "user" "u1" "c1" "boom" []
    (by simp)

/-! ### Coordinator early return on empty messages -/

/-- C9: on a state with no messages, `CoordinatorAgent.process` returns the
constant response (content "没有接收到消息", confidence 0, no tool calls, no
next action) regardless of the recognized intent or of any branch handler's
outcome — no classification or dispatch result influences it. -/
theorem coordinator_process_empty_messages (intent : Intent)
    (casualResult queryResult complexResult defaultResult : Except String AgentResponseM) :
    processCoordinator [] intent casualResult queryResult complexResult defaultResult =
      ⟨"没有接收到消息", [], none, 0⟩ := rfl

/-! ### Specialist registry: one agent per name, first-match polling -/

theorem pyLookup_map_replace {β : Type} (k : String) (v : β) :
    ∀ m : List (String × β), k ∈ m.map Prod.fst →
      pyLookup (m.map fun p => if p.1 = k then (k, v) else p) k = some v := by
  intro m
  induction m with
  | nil => simp
  | cons p rest ih =>
    intro hk
    match p with
    | (k', v') =>
      by_cases h : k' = k
      · simp only [List.map_cons]
        rw [show (if (k', v').1 = k then (k, v) else (k', v')) = (k, v) from by simp [h]]
        rw [pyLookup, if_pos rfl]
      · simp only [List.map_cons]
        rw [show (if (k', v').1 = k then (k, v) else (k', v')) = (k', v') from by simp [h]]
        rw [pyLookup, if_neg h]
        apply ih
        simp only [List.map_cons, List.mem_cons] at hk
        rcases hk with h1 | h1
        · exact absurd h1.symm h
        · exact h1

theorem pyLookup_append_right {β : Type} (k : String) :
    ∀ m l : List (String × β), k ∉ m.map Prod.fst → pyLookup (m ++ l) k = pyLookup l k := by
  intro m
  induction m with
  | nil => intro l _; rfl
  | cons p rest ih =>
    intro l hk
    match p with
    | (k', v') =>
      have h : ¬k' = k := fun he => hk (by simp [he])
      rw [List.cons_append, pyLookup, if_neg h]
      exact ih l fun hm => hk (by simp only [List.map_cons, List.mem_cons]; exact Or.inr hm)

theorem pyLookup_pyInsert_self {β : Type} (m : List (String × β)) (k : String) (v : β) :
    pyLookup (pyInsert m k v) k = some v := by
  rw [pyInsert]
  split
  · next h => exact pyLookup_map_replace k v m h
  · next h =>
    rw [pyLookup_append_right k m _ h, pyLookup, if_pos rfl]

theorem foldl_register_nodup :
    ∀ (agents : List AgentM) (m : List (String × AgentM)),
      (m.map Prod.fst).Nodup → ((agents.foldl register_agent m).map Prod.fst).Nodup := by
  intro agents
  induction agents with
  | nil => intro m h; simpa using h
  | cons a agents ih =>
    intro m h
    rw [List.foldl_cons]
    apply ih
    rw [register_agent, pyInsert_map_fst]
    split
    · exact h
    · next hni =>
      exact List.Nodup.append h (List.nodup_singleton _)
        (by simpa [List.disjoint_singleton] using hni)

theorem selectAgent_eq_find :
    ∀ (p : AgentM → Bool) (m : List (String × AgentM)),
      selectAgentForTask p m = (m.map Prod.snd).find? p := by
  intro p m
  induction m with
  | nil => rfl
  | cons q rest ih =>
    match q with
    | (k, a) =>
      by_cases h : p a <;> simp [selectAgentForTask, List.find?_cons, h, ih]

/-- C10: the registry holds at most one agent per name — re-registering a
name replaces the stored agent while keeping the name's original position in
the key order; any registration sequence yields duplicate-free keys; and
capability polling returns the first value, in dict order, accepted by
`can_handle`. -/
theorem registry_semantics :
    (∀ (m : List (String × AgentM)) (a : AgentM), a.name ∈ m.map Prod.fst →
      (register_agent m a).map Prod.fst = m.map Prod.fst ∧
        pyLookup (register_agent m a) a.name = some a) ∧
    (∀ agents : List AgentM, ((agents.foldl register_agent []).map Prod.fst).Nodup) ∧
    (∀ (p : AgentM → Bool) (m : List (String × AgentM)),
      selectAgentForTask p m = (m.map Prod.snd).find? p) := by
  refine ⟨?_, ?_, ?_⟩
  · intro m a ha
    exact ⟨by rw [register_agent, pyInsert_map_fst, if_pos ha],
      pyLookup_pyInsert_self m a.name a⟩
  · intro agents
    exact foldl_register_nodup agents [] (by simp)
  · exact selectAgent_eq_find

/-- Witness for C10: re-registering name "x" keeps the key order ["x", "y"]
and stores the new agent; a three-registration sequence with a repeated name
has duplicate-free keys; polling picks the first accepted value. -/
theorem registry_semantics_witness :
    (register_agent regEx ⟨"x", 2⟩).map Prod.fst = regEx.map Prod.fst ∧
    pyLookup (register_agent regEx ⟨"x", 2⟩) "x" = some ⟨"x", 2⟩ ∧
    ((([⟨"x", 0⟩, ⟨"y", 1⟩, ⟨"x", 2⟩] : List AgentM).foldl
        register_agent []).map Prod.fst).Nodup ∧
    selectAgentForTask (fun a => decide (a.tag = 1)) regEx =
      (regEx.map Prod.snd).find? (fun a => decide (a.tag = 1)) :=
  ⟨(registry_semantics.1 regEx ⟨"x", 2⟩ (by decide)).1,
   (registry_semantics.1 regEx ⟨"x", 2⟩ (by decide)).2,
   registry_semantics.2.1 _,
   registry_semantics.2.2 _ regEx⟩

end MultiAgent
